import Mathlib

/-!
Verification of the extraction-and-encoding pipeline of `generate_ics.py`.

The Python source is shallowly embedded: each Python helper becomes a Lean
function on `List Char` / `String`, machine-independent and executable.
Strings are modelled as their character lists; Python `str.replace` chains
become compositions of character-level rewriters; the regular expressions of
the source (`TIME_RE`, `DATE_RE`, `ISO_DATE_RE`, `CHANNEL_RE`, the
competition keyword patterns) become explicit left-to-right backtracking
scanners with Python `re` semantics (leftmost match, greedy quantifiers,
alternation in source order, `\b` word boundaries).  Fallible code
(`datetime(...)` raising `ValueError` on out-of-range values) is modelled
with `Except Unit`.
-/

namespace GenerateIcs

/-! ### Character helpers -/

/-- Python `\s` (whitespace) for the inputs in scope: ASCII whitespace plus
the non-breaking space, all of which Python treats as whitespace. -/
def isWsChar (c : Char) : Bool :=
  c = ' ' || c = '\t' || c = '\n' || c = '\r' || c = '\x0b' || c = '\x0c' || c = ' '

/-- The `[ \t]` class of `_strip`'s regex. -/
def isSpTab (c : Char) : Bool := c = ' ' || c = '\t'

/-- Python `\w` (word character) for the character repertoire in scope:
ASCII alphanumerics, underscore, and the Danish letters appearing in the
source data. -/
def isWordChar (c : Char) : Bool :=
  c.isAlphanum || c = '_' || c = 'å' || c = 'Å' || c = 'æ' || c = 'Æ' || c = 'ø' || c = 'Ø'

/-- Python `str.lower` restricted to the character repertoire in scope. -/
def pyLower (c : Char) : Char :=
  if 'A' ≤ c ∧ c ≤ 'Z' then Char.ofNat (c.toNat + 32)
  else if c = 'Å' then 'å' else if c = 'Æ' then 'æ' else if c = 'Ø' then 'ø' else c

/-- Digit value of an ASCII digit. -/
def digitVal (c : Char) : Nat := c.toNat - 48

/-- Numeric value of a digit string, as Python `int`. -/
def digitsToNat (l : List Char) : Nat := l.foldl (fun a c => a * 10 + digitVal c) 0

/-! ### `List` helpers (kept local so their equations are under our control) -/

def listJoinMap (f : α → List β) : List α → List β
  | [] => []
  | a :: l => f a ++ listJoinMap f l

theorem listJoinMap_append (f : α → List β) (a b : List α) :
    listJoinMap f (a ++ b) = listJoinMap f a ++ listJoinMap f b := by
  induction a with
  | nil => rfl
  | cons x xs ih => simp [listJoinMap, ih]

theorem mem_listJoinMap {f : α → List β} {b : β} {l : List α} :
    b ∈ listJoinMap f l ↔ ∃ a ∈ l, b ∈ f a := by
  induction l with
  | nil => simp [listJoinMap]
  | cons x xs ih => simp [listJoinMap, ih]

/-! ### `ics_escape` — RFC5545 TEXT escaping, as the sequential `str.replace`
chain of the source (backslash, then semicolon, then comma, then newline
normalisation, then newline escaping). -/

def escSlashC (c : Char) : List Char := if c = '\\' then ['\\', '\\'] else [c]

def escSemiC (c : Char) : List Char := if c = ';' then ['\\', ';'] else [c]

def escCommaC (c : Char) : List Char := if c = ',' then ['\\', ','] else [c]

def escNlC (c : Char) : List Char := if c = '\n' then ['\\', 'n'] else [c]

/-- `text.replace("\r\n", "\n")`: left-to-right, non-overlapping. -/
def crlfToLf : List Char → List Char
  | [] => []
  | [c] => [c]
  | c1 :: c2 :: rest =>
    if c1 = '\r' ∧ c2 = '\n' then '\n' :: crlfToLf rest
    else c1 :: crlfToLf (c2 :: rest)

/-- `text.replace("\r", "\n")`. -/
def crToLf (l : List Char) : List Char := l.map (fun c => if c = '\r' then '\n' else c)

def icsEscapeList (l : List Char) : List Char :=
  listJoinMap escNlC
    (crToLf (crlfToLf (listJoinMap escCommaC (listJoinMap escSemiC (listJoinMap escSlashC l)))))

/-- `ics_escape` of the source. -/
def ics_escape (s : String) : String := ⟨icsEscapeList s.data⟩

/-- RFC5545 TEXT unescaping (the wire format's decoder, as described by the
spec): a left-to-right scan turning `\\`, `\;`, `\,`, `\n` back into the
bare character. -/
def icsUnescapeList : List Char → List Char
  | [] => []
  | [c] => [c]
  | c1 :: c2 :: rest =>
    if c1 = '\\' then
      (if c2 = '\\' then ['\\'] else if c2 = ';' then [';']
       else if c2 = ',' then [','] else if c2 = 'n' then ['\n'] else ['\\', c2]) ++
        icsUnescapeList rest
    else c1 :: icsUnescapeList (c2 :: rest)

def ics_unescape (s : String) : String := ⟨icsUnescapeList s.data⟩

/-- The combined per-character action of the first three replaces and the
final newline replace, valid on carriage-return-free text. -/
def escCoreC (c : Char) : List Char :=
  if c = '\\' then ['\\', '\\'] else if c = ';' then ['\\', ';']
  else if c = ',' then ['\\', ','] else if c = '\n' then ['\\', 'n'] else [c]

theorem escCore_single (c : Char) :
    listJoinMap escNlC (listJoinMap escCommaC (listJoinMap escSemiC (escSlashC c))) =
      escCoreC c := by
  by_cases h1 : c = '\\'
  · subst h1; decide
  by_cases h2 : c = ';'
  · subst h2; decide
  by_cases h3 : c = ','
  · subst h3; decide
  by_cases h4 : c = '\n'
  · subst h4; decide
  simp [escSlashC, escSemiC, escCommaC, escNlC, escCoreC, listJoinMap, h1, h2, h3, h4]

theorem escChain_eq (l : List Char) :
    listJoinMap escNlC (listJoinMap escCommaC (listJoinMap escSemiC (listJoinMap escSlashC l))) =
      listJoinMap escCoreC l := by
  induction l with
  | nil => rfl
  | cons c t ih =>
    simp only [listJoinMap, listJoinMap_append]
    rw [escCore_single c, ih]

theorem cr_escSlashC {c : Char} (h : '\r' ∈ escSlashC c) : c = '\r' := by
  unfold escSlashC at h
  split at h
  · exact absurd h (by decide)
  · rw [List.mem_singleton] at h; exact h.symm

theorem cr_escSemiC {c : Char} (h : '\r' ∈ escSemiC c) : c = '\r' := by
  unfold escSemiC at h
  split at h
  · exact absurd h (by decide)
  · rw [List.mem_singleton] at h; exact h.symm

theorem cr_escCommaC {c : Char} (h : '\r' ∈ escCommaC c) : c = '\r' := by
  unfold escCommaC at h
  split at h
  · exact absurd h (by decide)
  · rw [List.mem_singleton] at h; exact h.symm

theorem cr_not_mem_inner (l : List Char) (h : '\r' ∉ l) :
    '\r' ∉ listJoinMap escCommaC (listJoinMap escSemiC (listJoinMap escSlashC l)) := by
  intro hmem
  rcases mem_listJoinMap.1 hmem with ⟨b, hb, hb2⟩
  rcases mem_listJoinMap.1 hb with ⟨a, ha, ha2⟩
  rcases mem_listJoinMap.1 ha with ⟨c, hc, hc2⟩
  have hb3 : b = '\r' := cr_escCommaC hb2
  subst hb3
  have ha3 : a = '\r' := cr_escSemiC ha2
  subst ha3
  have hc3 : c = '\r' := cr_escSlashC hc2
  subst hc3
  exact h hc

theorem crlfToLf_of_no_cr : ∀ (l : List Char), '\r' ∉ l → crlfToLf l = l
  | [], _ => rfl
  | [c], _ => rfl
  | c1 :: c2 :: rest, h => by
    have h1 : c1 ≠ '\r' := fun hc => h (hc ▸ List.mem_cons_self _ _)
    have h2 : '\r' ∉ c2 :: rest := fun hc => h (List.mem_cons_of_mem _ hc)
    simp only [crlfToLf]
    rw [if_neg (fun hand => h1 hand.1)]
    rw [crlfToLf_of_no_cr (c2 :: rest) h2]

theorem crToLf_of_no_cr (l : List Char) (h : '\r' ∉ l) : crToLf l = l := by
  unfold crToLf
  induction l with
  | nil => rfl
  | cons c rest ih =>
    have h1 : c ≠ '\r' := fun hc => h (hc ▸ List.mem_cons_self _ _)
    have h2 : '\r' ∉ rest := fun hc => h (List.mem_cons_of_mem _ hc)
    simp only [List.map_cons, if_neg h1, ih h2]

theorem icsUnescapeList_cons (c : Char) (rest : List Char) (h : c ≠ '\\') :
    icsUnescapeList (c :: rest) = c :: icsUnescapeList rest := by
  cases rest with
  | nil => rfl
  | cons c2 r2 => simp only [icsUnescapeList, if_neg h]

theorem unesc_slash (r : List Char) :
    icsUnescapeList ('\\' :: '\\' :: r) = '\\' :: icsUnescapeList r := by
  simp [icsUnescapeList]

theorem unesc_semi (r : List Char) :
    icsUnescapeList ('\\' :: ';' :: r) = ';' :: icsUnescapeList r := by
  simp [icsUnescapeList]

theorem unesc_comma (r : List Char) :
    icsUnescapeList ('\\' :: ',' :: r) = ',' :: icsUnescapeList r := by
  simp [icsUnescapeList]

theorem unesc_nl (r : List Char) :
    icsUnescapeList ('\\' :: 'n' :: r) = '\n' :: icsUnescapeList r := by
  simp [icsUnescapeList]

theorem icsUnescapeList_joinMap (l : List Char) :
    icsUnescapeList (listJoinMap escCoreC l) = l := by
  induction l with
  | nil => rfl
  | cons c t ih =>
    simp only [listJoinMap]
    by_cases h1 : c = '\\'
    · subst h1
      rw [show escCoreC '\\' = ['\\', '\\'] from by decide]
      simp only [List.cons_append, List.nil_append, unesc_slash, ih]
    by_cases h2 : c = ';'
    · subst h2
      rw [show escCoreC ';' = ['\\', ';'] from by decide]
      simp only [List.cons_append, List.nil_append, unesc_semi, ih]
    by_cases h3 : c = ','
    · subst h3
      rw [show escCoreC ',' = ['\\', ','] from by decide]
      simp only [List.cons_append, List.nil_append, unesc_comma, ih]
    by_cases h4 : c = '\n'
    · subst h4
      rw [show escCoreC '\n' = ['\\', 'n'] from by decide]
      simp only [List.cons_append, List.nil_append, unesc_nl, ih]
    · have hc : escCoreC c = [c] := by simp [escCoreC, h1, h2, h3, h4]
      rw [hc, List.singleton_append, icsUnescapeList_cons c _ h1, ih]

theorem icsEscapeList_of_no_cr (l : List Char) (h : '\r' ∉ l) :
    icsEscapeList l = listJoinMap escCoreC l := by
  unfold icsEscapeList
  rw [crlfToLf_of_no_cr _ (cr_not_mem_inner l h), crToLf_of_no_cr _ (cr_not_mem_inner l h),
    escChain_eq]

theorem unescape_escape_of_no_cr (l : List Char) (h : '\r' ∉ l) :
    icsUnescapeList (icsEscapeList l) = l := by
  rw [icsEscapeList_of_no_cr l h, icsUnescapeList_joinMap]

/-! No raw CR/LF survives escaping. -/

theorem cr_not_mem_crToLf (l : List Char) : '\r' ∉ crToLf l := by
  intro hmem
  rcases List.mem_map.1 hmem with ⟨b, _, hb⟩
  by_cases h : b = '\r' <;> simp [h] at hb

theorem no_raw_newline_in_escNl (x : List Char) (hcr : '\r' ∉ x) :
    '\r' ∉ listJoinMap escNlC x ∧ '\n' ∉ listJoinMap escNlC x := by
  constructor
  · intro hmem
    rcases mem_listJoinMap.1 hmem with ⟨a, ha, ha2⟩
    have : a = '\r' := by
      unfold escNlC at ha2
      split at ha2
      · exact absurd ha2 (by decide)
      · rw [List.mem_singleton] at ha2; exact ha2.symm
    exact hcr (this ▸ ha)
  · intro hmem
    rcases mem_listJoinMap.1 hmem with ⟨a, ha, ha2⟩
    unfold escNlC at ha2
    split at ha2
    case isTrue => exact absurd ha2 (by decide)
    case isFalse hne => rw [List.mem_singleton] at ha2; exact hne ha2.symm

theorem icsEscapeList_no_cr_lf (l : List Char) :
    '\r' ∉ icsEscapeList l ∧ '\n' ∉ icsEscapeList l := by
  unfold icsEscapeList
  exact no_raw_newline_in_escNl _ (cr_not_mem_crToLf _)

/-! ### Python string helpers -/

/-- Python `str.strip()` (both ends, whitespace incl. NBSP). -/
def pyStripList (l : List Char) : List Char :=
  ((l.dropWhile isWsChar).reverse.dropWhile isWsChar).reverse

mutual

/-- `re.sub(r"[ \t]+", " ", ·)`: each maximal run of spaces/tabs becomes one space. -/
def collapseSpTab : List Char → List Char
  | [] => []
  | c :: rest => if isSpTab c then ' ' :: collapseSpTabSkip rest else c :: collapseSpTab rest

def collapseSpTabSkip : List Char → List Char
  | [] => []
  | c :: rest => if isSpTab c then collapseSpTabSkip rest else c :: collapseSpTab rest

end

/-- `_strip` of the source: `re.sub(r"[ \t]+", " ", s.strip())`. -/
def _strip (s : String) : String := ⟨collapseSpTab (pyStripList s.data)⟩

/-- `listStartsWith p l`: `l` starts with `p` (exact characters). -/
def listStartsWith : List Char → List Char → Bool
  | [], _ => true
  | _ :: _, [] => false
  | p :: ps, c :: cs => p == c && listStartsWith ps cs

/-- Python `needle in hay` substring test. -/
def isSubstrList (n : List Char) : List Char → Bool
  | [] => listStartsWith n []
  | c :: t => listStartsWith n (c :: t) || isSubstrList n t

def isSubstr (n hay : String) : Bool := isSubstrList n.data hay.data

/-- `ln.lower().startswith(p.lower())`. -/
def lowerStartsWith (p l : List Char) : Bool :=
  listStartsWith (p.map pyLower) (l.map pyLower)

/-- First occurrence of `" - "`: `ln.split(" - ", 1)`. -/
def splitDashList : List Char → Option (List Char × List Char)
  | ' ' :: '-' :: ' ' :: rest => some ([], rest)
  | c :: rest => (splitDashList rest).map (fun p => (c :: p.1, p.2))
  | [] => none

def firstSome (f : α → Option β) : List α → Option β
  | [] => none
  | a :: rest => match f a with | some b => some b | none => firstSome f rest

/-! ### Regex scanners

Python `re.search` semantics: positions are tried left to right; at a given
position a `\b` before the match requires the previous character (if any)
to be a non-word character; greedy quantifiers try longer alternatives
first; alternations are tried in source order. -/

/-- `\b` holds before the current (word) character. -/
def noPrev : Option Char → Bool
  | none => true
  | some c => !isWordChar c

/-- `\b` holds after a word character: next char absent or non-word. -/
def bAfterDigits : List Char → Bool
  | [] => true
  | c :: _ => !isWordChar c

/-- `TIME_RE = \b(\d{1,2})\.(\d{2})\b`, two-digit-hour attempt. -/
def timeAt2 : List Char → Option (Nat × Nat)
  | d1 :: d2 :: '.' :: m1 :: m2 :: rest =>
    if d1.isDigit && d2.isDigit && m1.isDigit && m2.isDigit && bAfterDigits rest then
      some (10 * digitVal d1 + digitVal d2, 10 * digitVal m1 + digitVal m2)
    else none
  | _ => none

/-- `TIME_RE`, one-digit-hour attempt. -/
def timeAt1 : List Char → Option (Nat × Nat)
  | d1 :: '.' :: m1 :: m2 :: rest =>
    if d1.isDigit && m1.isDigit && m2.isDigit && bAfterDigits rest then
      some (digitVal d1, 10 * digitVal m1 + digitVal m2)
    else none
  | _ => none

def timeSearchAux : Option Char → List Char → Option (Nat × Nat)
  | _, [] => none
  | prev, c :: rest =>
    match (if noPrev prev then (timeAt2 (c :: rest)).orElse (fun _ => timeAt1 (c :: rest))
           else none) with
    | some r => some r
    | none => timeSearchAux (some c) rest

/-- `TIME_RE.search`, returning `(hour, minute)` of the leftmost match. -/
def timeSearch (l : List Char) : Option (Nat × Nat) := timeSearchAux none l

/-- Take exactly `n` digits. -/
def takeDigits : Nat → List Char → Option (List Char × List Char)
  | 0, l => some ([], l)
  | _ + 1, [] => none
  | n + 1, c :: rest =>
    if c.isDigit then (takeDigits n rest).map (fun p => (c :: p.1, p.2)) else none

/-- The separator class (dot, slash, dash) of `DATE_RE`. -/
def sepOk (c : Char) : Bool := c == '.' || c == '/' || c == '-'

/-- One backtracking attempt of `DATE_RE` (day, month, 2-4-digit year, separated by dot, slash or dash)
with fixed digit-group widths. -/
def tryDMY (l : List Char) (n1 n2 n3 : Nat) : Option (Nat × Nat × Nat) :=
  match takeDigits n1 l with
  | none => none
  | some (ds1, r1) =>
    match r1 with
    | [] => none
    | s1 :: r1b =>
      if sepOk s1 then
        match takeDigits n2 r1b with
        | none => none
        | some (ds2, r2) =>
          match r2 with
          | [] => none
          | s2 :: r2b =>
            if sepOk s2 then
              match takeDigits n3 r2b with
              | none => none
              | some (ds3, r3) =>
                if bAfterDigits r3 then
                  some (digitsToNat ds1, digitsToNat ds2, digitsToNat ds3)
                else none
            else none
      else none

/-- Greedy backtracking order of the three digit groups of `DATE_RE`. -/
def dateCombos : List (Nat × Nat × Nat) :=
  [(2, 2, 4), (2, 2, 3), (2, 2, 2), (2, 1, 4), (2, 1, 3), (2, 1, 2),
   (1, 2, 4), (1, 2, 3), (1, 2, 2), (1, 1, 4), (1, 1, 3), (1, 1, 2)]

def dateAt (l : List Char) : Option (Nat × Nat × Nat) :=
  firstSome (fun c => tryDMY l c.1 c.2.1 c.2.2) dateCombos

def dateSearchAux : Option Char → List Char → Option (Nat × Nat × Nat)
  | _, [] => none
  | prev, c :: rest =>
    match (if noPrev prev then dateAt (c :: rest) else none) with
    | some r => some r
    | none => dateSearchAux (some c) rest

/-- `DATE_RE.search`, returning `(day, month, year)` groups of the leftmost match. -/
def dateSearch (l : List Char) : Option (Nat × Nat × Nat) := dateSearchAux none l

/-- `ISO_DATE_RE = \b(\d{4})-(\d{2})-(\d{2})\b` at the current position. -/
def isoAt (l : List Char) : Option (Nat × Nat × Nat) :=
  match takeDigits 4 l with
  | some (ds1, '-' :: r1) =>
    match takeDigits 2 r1 with
    | some (ds2, '-' :: r2) =>
      match takeDigits 2 r2 with
      | some (ds3, r3) =>
        if bAfterDigits r3 then some (digitsToNat ds1, digitsToNat ds2, digitsToNat ds3)
        else none
      | _ => none
    | _ => none
  | _ => none

def isoSearchAux : Option Char → List Char → Option (Nat × Nat × Nat)
  | _, [] => none
  | prev, c :: rest =>
    match (if noPrev prev then isoAt (c :: rest) else none) with
    | some r => some r
    | none => isoSearchAux (some c) rest

/-- `ISO_DATE_RE.search`, returning `(year, month, day)`-groups of the leftmost match. -/
def isoSearch (l : List Char) : Option (Nat × Nat × Nat) := isoSearchAux none l

/-! ### `CHANNEL_RE` — the big case-insensitive alternation, alternations in
source order, each alternative producing its backtracking candidates
(match lengths) in greedy preference order. -/

/-- Case-insensitive literal match; pattern given lowercase. Returns the rest. -/
def matchCI : List Char → List Char → Option (List Char)
  | [], l => some l
  | _ :: _, [] => none
  | p :: ps, c :: cs => if pyLower c == p then matchCI ps cs else none

/-- Length of the leading whitespace run (`\s*` is greedy; a following
letter literal pins it to the full run). -/
def wsRunLen (l : List Char) : Nat := (l.takeWhile isWsChar).length

/-- Candidates for `(?:\s*LIT1|\s*LIT2|…)?` after `base` consumed chars,
given the remaining text `r`: each literal alternative in order, then the
empty option. -/
def optSuffix (lits : List (List Char)) (base : Nat) (r : List Char) : List Nat :=
  (lits.filterMap (fun lit =>
    let k := wsRunLen r
    match matchCI lit (r.drop k) with
    | some _ => some (base + k + lit.length)
    | none => none)) ++ [base]

def tv2Suffixes : List (List Char) :=
  ["sport".data, "news".data, "charlie".data, "echo".data, "zulu".data]

/-- Alternative `TV\s?2(?:\s*Sport|\s*News|\s*Charlie|\s*Echo|\s*Zulu)?`. -/
def altTV2 (l : List Char) : List Nat :=
  match matchCI "tv".data l with
  | none => []
  | some r1 =>
    let opts : List (Nat × List Char) :=
      (match r1 with
       | c :: d :: r3 => if isWsChar c && (pyLower d == '2') then [(4, r3)] else []
       | _ => []) ++
      (match r1 with
       | d :: r3 => if pyLower d == '2' then [(3, r3)] else []
       | _ => [])
    listJoinMap (fun p => optSuffix tv2Suffixes p.1 p.2) opts

/-- Alternative `TV3(?:\s*Sport)?`. -/
def altTV3 (l : List Char) : List Nat :=
  match matchCI "tv3".data l with
  | none => []
  | some r => optSuffix ["sport".data] 3 r

/-- A bare literal alternative. -/
def altLit (pat : String) (l : List Char) : List Nat :=
  match matchCI pat.data l with
  | none => []
  | some _ => [pat.length]

/-- Alternative `DR\s?X` for a literal tail `X`. -/
def altDRws (tail : String) (l : List Char) : List Nat :=
  match matchCI "dr".data l with
  | none => []
  | some r1 =>
    (match r1 with
     | c :: r2 =>
       if isWsChar c then
         match matchCI tail.data r2 with
         | some _ => [2 + 1 + tail.length]
         | none => []
       else []
     | [] => []) ++
    (match matchCI tail.data r1 with
     | some _ => [2 + tail.length]
     | none => [])

/-- Alternative `Eurosport(?:\s*\d+)?` (`\d+` greedy; only the maximal
digit run can satisfy the trailing boundary). -/
def altEuro (l : List Char) : List Nat :=
  match matchCI "eurosport".data l with
  | none => []
  | some r =>
    let k := wsRunLen r
    let dRun := ((r.drop k).takeWhile Char.isDigit).length
    (if dRun ≥ 1 then [9 + k + dRun] else []) ++ [9]

/-- The alternatives of `CHANNEL_RE` in source order. -/
def channelAlts : List (List Char → List Nat) :=
  [altTV2, altTV3, altLit "dr1", altLit "dr2", altDRws "ramasjang", altDRws "tv",
   altEuro, altLit "viaplay", altLit "sport live", altLit "max", altLit "discovery+",
   altLit "dazn"]

/-- Trailing `\b` after a candidate of length `n` at the current position. -/
def chanBoundaryOk (l : List Char) (n : Nat) : Bool :=
  match (l.take n).getLast? with
  | none => false
  | some c =>
    isWordChar c != (match l.drop n with | [] => false | r :: _ => isWordChar r)

def channelAt (l : List Char) : Option Nat :=
  firstSome (fun alt => firstSome (fun n => if chanBoundaryOk l n then some n else none) (alt l))
    channelAlts

def channelSearchAux : Option Char → List Char → Option (List Char)
  | _, [] => none
  | prev, c :: rest =>
    match (if noPrev prev then channelAt (c :: rest) else none) with
    | some n => some ((c :: rest).take n)
    | none => channelSearchAux (some c) rest

/-- `CHANNEL_RE.search`, returning the matched `group(1)` text (original case). -/
def channelSearchList (l : List Char) : Option (List Char) := channelSearchAux none l

def channelFound (s : String) : Bool := (channelSearchList s.data).isSome

/-! ### Keyword searches (`prefer_re`, `compy`): `\b(w1|w2|…)\b`, ignorecase. -/

/-- Does some keyword match at the current position (with trailing `\b`)? -/
def wordsAt (ws : List (List Char)) (l : List Char) : Bool :=
  ws.any (fun w =>
    match matchCI w l with
    | some [] => true
    | some (c :: _) => !isWordChar c
    | none => false)

def wordsSearchAux (ws : List (List Char)) : Option Char → List Char → Bool
  | _, [] => false
  | prev, c :: rest =>
    (noPrev prev && wordsAt ws (c :: rest)) || wordsSearchAux ws (some c) rest

def wordsSearch (ws : List (List Char)) (l : List Char) : Bool := wordsSearchAux ws none l

/-! ### `normalize_channel` -/

/-- One attempt of `\bTV\s+2\b` at the current position: returns the rest
after the match. -/
def tvTryAt (l : List Char) : Option (List Char) :=
  match matchCI "tv".data l with
  | none => none
  | some r1 =>
    let k := wsRunLen r1
    if k ≥ 1 then
      match r1.drop k with
      | '2' :: r2 =>
        if (match r2 with | [] => true | c :: _ => !isWordChar c) then some r2 else none
      | _ => none
    else none

/-- `re.sub(r"\bTV\s+2\b", "TV2", ·, flags=IGNORECASE)`; the fuel is the
input length, an upper bound on the number of scan steps. -/
def tvSubGo : Nat → Option Char → List Char → List Char
  | 0, _, l => l
  | fuel + 1, prev, l =>
    match l with
    | [] => []
    | c :: rest =>
      if noPrev prev then
        match tvTryAt l with
        | some r2 => 'T' :: 'V' :: '2' :: tvSubGo fuel (some '2') r2
        | none => c :: tvSubGo fuel (some c) rest
      else c :: tvSubGo fuel (some c) rest

def tvSubList (l : List Char) : List Char := tvSubGo l.length none l

/-- `re.sub(r"\s{2,}", " ", ·)`: whitespace runs of length ≥ 2 become one
space; single whitespace characters are kept as-is. -/
def ws2Go : Nat → List Char → List Char
  | 0, l => l
  | _ + 1, [] => []
  | _ + 1, [c] => [c]
  | fuel + 1, c1 :: c2 :: rest =>
    if isWsChar c1 && isWsChar c2 then ' ' :: ws2Go fuel (rest.dropWhile isWsChar)
    else c1 :: ws2Go fuel (c2 :: rest)

def collapseWs2List (l : List Char) : List Char := ws2Go l.length l

/-- `normalize_channel` of the source. -/
def normalize_channel (text : String) : String :=
  match channelSearchList text.data with
  | none => ""
  | some chars => ⟨collapseWs2List (tvSubList (pyStripList chars))⟩

/-! ### `extract_teams_and_competition` and `clean_summary` -/

def timeFound (s : String) : Bool := (timeSearch s.data).isSome

def dateFound (s : String) : Bool := (dateSearch s.data).isSome

def isoFound (s : String) : Bool := (isoSearch s.data).isSome

/-- The noise test: `ln.lower().startswith(p.lower())` over the source's
`noise_prefixes` tuple. -/
def noiseStart (ln : String) : Bool :=
  ["Vises på", "Kanal", "TV", "all-day", "starts", "ends"].any
    (fun p => lowerStartsWith p.data ln.data)

/-- Strategy 1 test: `" - " in ln` with both split halves of length ≥ 2. -/
def teamsLineOk (ln : String) : Bool :=
  match splitDashList ln.data with
  | some (a, b) => a.length ≥ 2 && b.length ≥ 2
  | none => false

def firstTeamsLine : List String → Option String
  | [] => none
  | ln :: rest => if teamsLineOk ln then some ln else firstTeamsLine rest

/-- Strategy 2: three consecutive lines `A`, `"-"`, `B`. -/
def threeLineTeams : List String → Option String
  | a :: b :: c :: rest =>
    if b == "-" && !(a == "") && !(c == "") then some (a ++ " - " ++ c)
    else threeLineTeams (b :: c :: rest)
  | _ => none

/-- `is_meta` of the source. -/
def isMetaLine (ln : String) : Bool :=
  channelFound ln || dateFound ln || isoFound ln || (timeFound ln && ln.length ≤ 5)

/-- Strategy 3's candidate filter. -/
def fallbackCandidateOk (ln : String) : Bool :=
  !channelFound ln && !(timeFound ln && ln.length ≤ 5) && !(dateFound ln || isoFound ln)

def preferWords : List (List Char) :=
  ["runde", "liga", "lig", "turnering", "final", "semi", "kvart", "champions", "europe",
   "em", "vm"].map String.data

def compyWords : List (List Char) :=
  ["em", "vm", "liga", "final", "runde", "turnering", "champions", "gruppespil", "qual",
   "kval", "pokal"].map String.data

def preferFound (s : String) : Bool := wordsSearch preferWords s.data

def compyFound (s : String) : Bool := wordsSearch compyWords s.data

/-- `extract_teams_and_competition` of the source. -/
def extract_teams_and_competition (lines : List String) : String × String :=
  let cleaned0 := (lines.map _strip).filter (fun ln => ln ≠ "")
  let cleaned := cleaned0.filter (fun ln => !noiseStart ln)
  let teams1 := match firstTeamsLine cleaned with | some t => t | none => ""
  let teams2 :=
    if teams1 == "" then
      match threeLineTeams cleaned with | some t => t | none => ""
    else teams1
  let teams :=
    if teams2 == "" then
      match cleaned.filter fallbackCandidateOk with
      | c0 :: c1 :: _ => c0 ++ " - " ++ c1
      | _ => ""
    else teams2
  let compCands := cleaned.filter (fun ln =>
    !isMetaLine ln && !(teams ≠ "" && ln == teams) && !(teams ≠ "" && isSubstr ln teams))
  let comp :=
    if teams ≠ "" then
      match compCands.filter preferFound with
      | p :: _ => p
      | [] => match compCands with | c :: _ => c | [] => ""
    else
      match compCands with | c :: _ => c | [] => ""
  (_strip teams, _strip comp)

/-- `teamy = re.compile(r".+ - .+")`, used with `re.match` (anchored at the
start): some `" - "` at index ≥ 1 inside the first line (dot does not match
newline), with at least one character after it. -/
def hasSepWithTail : List Char → Bool
  | ' ' :: '-' :: ' ' :: _ :: _ => true
  | _ :: rest => hasSepWithTail rest
  | [] => false

def teamyMatch (c : String) : Bool :=
  match c.data.takeWhile (fun ch => ch != '\n') with
  | [] => false
  | _ :: rest => hasSepWithTail rest

/-- `clean_summary` of the source: swap summary and competition when the
summary looks like competition metadata and the competition like a pairing. -/
def clean_summary (summary competition : String) : String × String :=
  let s := _strip summary
  let c := _strip competition
  if compyFound s && teamyMatch c then (c, s) else (s, c)

/-! ### Datetimes.  Python `datetime(y, mo, d, hh, mm)` validates its
arguments and raises `ValueError` out of range; construction failure is
modelled as `Except.error ()`. -/

structure DateTime where
  year : Nat
  month : Nat
  day : Nat
  hour : Nat
  minute : Nat
  second : Nat
deriving DecidableEq, Repr

def isLeapYear (y : Nat) : Bool := y % 4 == 0 && (y % 100 != 0 || y % 400 == 0)

def daysInMonth (y m : Nat) : Nat :=
  if m == 2 then (if isLeapYear y then 29 else 28)
  else if m == 4 || m == 6 || m == 9 || m == 11 then 30
  else 31

/-- The validity checks of the `datetime` constructor (for the argument
shapes reachable here: minute/hour groups are at most two digits). -/
def dtValid (y mo d hh mm : Nat) : Bool :=
  1 ≤ y && y ≤ 9999 && 1 ≤ mo && mo ≤ 12 && 1 ≤ d && d ≤ daysInMonth y mo
    && hh ≤ 23 && mm ≤ 59

/-- Advance a valid datetime by one day. -/
def nextDay (dt : DateTime) : DateTime :=
  if dt.day < daysInMonth dt.year dt.month then { dt with day := dt.day + 1 }
  else if dt.month < 12 then { dt with day := 1, month := dt.month + 1 }
  else { dt with day := 1, month := 1, year := dt.year + 1 }

def addDays : Nat → DateTime → DateTime
  | 0, dt => dt
  | n + 1, dt => addDays n (nextDay dt)

/-- `dt + timedelta(minutes=k)` for a non-negative `k`. -/
def addMinutes (dt : DateTime) (k : Nat) : DateTime :=
  let total := dt.hour * 60 + dt.minute + k
  let dayCarry := total / (24 * 60)
  let rem := total % (24 * 60)
  addDays dayCarry { dt with hour := rem / 60, minute := rem % 60 }

/-- `default_end_time` of the source: start + 90 minutes. -/
def default_end_time (start : DateTime) : DateTime := addMinutes start 90

/-- `%02d`. -/
def pad2 (n : Nat) : String := if n < 10 then "0" ++ toString n else toString n

/-- `%04d`. -/
def pad4 (n : Nat) : String :=
  if n < 10 then "000" ++ toString n
  else if n < 100 then "00" ++ toString n
  else if n < 1000 then "0" ++ toString n
  else toString n

/-- The `date_key` string `f"{y:04d}-{mo:02d}-{d:02d}"`. -/
def dateKeyStr (y mo d : Nat) : String := pad4 y ++ "-" ++ pad2 mo ++ "-" ++ pad2 d

/-- `blob.replace(" ", " ")`. -/
def nbspToSpace (l : List Char) : List Char :=
  l.map (fun c => if c = ' ' then ' ' else c)

/-- `parse_datetime_from_text` of the source.  Returns `Except.error ()`
exactly when a date and a time are found but `datetime(...)` would raise. -/
def parse_datetime_from_text (blob : String) :
    Except Unit (Option (DateTime × String)) :=
  let l := nbspToSpace blob.data
  let ymd : Option (Nat × Nat × Nat) :=
    match isoSearch l with
    | some (y, mo, d) => some (y, mo, d)
    | none =>
      match dateSearch l with
      | some (d, mo, y) => some (if y < 100 then y + 2000 else y, mo, d)
      | none => none
  let tm := timeSearch l
  match ymd, tm with
  | some (y, mo, d), some (hh, mm) =>
    if dtValid y mo d hh mm then
      .ok (some (⟨y, mo, d, hh, mm, 0⟩, dateKeyStr y mo d))
    else .error ()
  | _, _ => .ok none

/-! ### Events -/

/-- `MatchEvent` of the source (`end` is a Lean keyword; the field is named
`stop`). -/
structure MatchEvent where
  start : DateTime
  stop : DateTime
  summary : String
  location : String
  description : String
  uid_seed : String
deriving DecidableEq, Repr

def pyStripStr (s : String) : String := ⟨pyStripList s.data⟩

/-- `block.split("\n")`: split at each newline (kept executable by the
kernel, unlike `String.splitOn`). -/
def splitLinesList : List Char → List (List Char)
  | [] => [[]]
  | '\n' :: rest => [] :: splitLinesList rest
  | c :: rest =>
    match splitLinesList rest with
    | [] => [[c]]
    | l :: ls => (c :: l) :: ls

/-- `[ln.strip() for ln in block.split("\n") if ln.strip()]`. -/
def blockLines (block : String) : List String :=
  ((splitLinesList block.data).map (fun l => pyStripStr ⟨l⟩)).filter (fun ln => ln ≠ "")

def joinNL : List String → String
  | [] => ""
  | [s] => s
  | s :: rest => s ++ "\n" ++ joinNL rest

/-- The summary/competition pair of one block: teams extraction, the
fallback chain for the summary, then the `clean_summary` swap. -/
def evSummaryComp (block : String) : String × String :=
  let tc := extract_teams_and_competition (blockLines block)
  clean_summary (if tc.1 ≠ "" then tc.1 else if tc.2 ≠ "" then tc.2 else "Håndboldkamp") tc.2

/-- The `extra` detail lines of one block (the loop in
`build_events_from_blocks`). -/
def evExtra (block : String) : List String :=
  ((blockLines block).map _strip).filter (fun ln =>
    ln ≠ "" && !(ln == (evSummaryComp block).1) && !(ln == (evSummaryComp block).2)
      && !channelFound ln && !(dateFound ln || isoFound ln)
      && !(timeFound ln && ln.length ≤ 5)
      && !((evSummaryComp block).1 ≠ "" && isSubstr ln (evSummaryComp block).1))

/-- The description of one block: competition plus up to four extra lines. -/
def evDescription (block : String) : String :=
  if (evExtra block).isEmpty then (evSummaryComp block).2
  else if (evSummaryComp block).2 ≠ "" then
    (evSummaryComp block).2 ++ "\n" ++ joinNL ((evExtra block).take 4)
  else joinNL ((evExtra block).take 4)

/-- The per-block event construction of `build_events_from_blocks`, after a
successful date/time parse. -/
def mkEvent (block : String) (dt : DateTime) (dateKey : String) : MatchEvent :=
  ⟨dt, default_end_time dt, (evSummaryComp block).1, normalize_channel block,
   evDescription block,
   dateKey ++ "|" ++ pad2 dt.hour ++ ":" ++ pad2 dt.minute ++ "|" ++ (evSummaryComp block).1
     ++ "|" ++ normalize_channel block⟩

/-- The block loop of `build_events_from_blocks` (before dedup/sort):
blocks without a parseable date+time are skipped; a `ValueError` from
`datetime(...)` aborts the run. -/
def collectEvents : List String → Except Unit (List MatchEvent)
  | [] => .ok []
  | b :: bs =>
    match parse_datetime_from_text b with
    | .error e => .error e
    | .ok none => collectEvents bs
    | .ok (some (dt, key)) =>
      match collectEvents bs with
      | .error e => .error e
      | .ok rest => .ok (mkEvent b dt key :: rest)

/-- One `unique[ev.uid_seed] = ev` step of the dedup dict. -/
def updEntry (ev : MatchEvent) (p : String × MatchEvent) : String × MatchEvent :=
  if p.1 == ev.uid_seed then (p.1, ev) else p

def updateAssoc (m : List (String × MatchEvent)) (ev : MatchEvent) :
    List (String × MatchEvent) :=
  if m.any (fun p => p.1 == ev.uid_seed) then m.map (updEntry ev) else m ++ [(ev.uid_seed, ev)]

/-- The dedup dict of the source: insertion-ordered keys, last write wins. -/
def dedupByUid (evs : List MatchEvent) : List MatchEvent :=
  (evs.foldl updateAssoc []).map Prod.snd

/-- Injective numeric encoding of a valid datetime, ordered like Python's
`datetime` comparison (all fields below 100). -/
def dtKey (dt : DateTime) : Nat :=
  ((((dt.year * 100 + dt.month) * 100 + dt.day) * 100 + dt.hour) * 100 + dt.minute) * 100
    + dt.second

/-- The sort key comparison `(e.start, e.summary)`. -/
def evLeB (a b : MatchEvent) : Bool :=
  dtKey a.start < dtKey b.start || (dtKey a.start == dtKey b.start && a.summary ≤ b.summary)

def sortEvents (evs : List MatchEvent) : List MatchEvent :=
  List.insertionSort (fun a b => evLeB a b = true) evs

/-- `build_events_from_blocks` of the source. -/
def build_events_from_blocks (blocks : List String) : Except Unit (List MatchEvent) :=
  match collectEvents blocks with
  | .error e => .error e
  | .ok evs => .ok (sortEvents (dedupByUid evs))

/-- The decision logic of `main`: error exit code 2 on an empty event set,
0 otherwise (file writing and scraping are outside the core). -/
def main_result (blocks : List String) : Except Unit Nat :=
  match build_events_from_blocks blocks with
  | .error e => .error e
  | .ok evs => .ok (if evs.isEmpty then 2 else 0)

/-! ### Calendar encoder -/

def dt_to_ics_local (dt : DateTime) : String :=
  pad4 dt.year ++ pad2 dt.month ++ pad2 dt.day ++ "T" ++ pad2 dt.hour ++ pad2 dt.minute
    ++ pad2 dt.second

def dt_to_ics_utc (dt : DateTime) : String := dt_to_ics_local dt ++ "Z"

/-- `stable_uid` of the source; `uuid.uuid5` is an external library call and
is supplied as a parameter. -/
def stable_uid (uuid5 : String → String) (seed : String) : String :=
  uuid5 seed ++ "@danskhaandbold.tvprogram"

def TZID : String := "Europe/Copenhagen"

def SCRIPT_VERSION : String := "2026-01-15-tv-program-final-title-fix"

def calendarHeaderLines : List String :=
  ["BEGIN:VCALENDAR", "PRODID:-//ChatGPT//Handball ICS//DA", "VERSION:2.0",
   "CALSCALE:GREGORIAN", "METHOD:PUBLISH", "X-SCRIPT-VERSION:" ++ SCRIPT_VERSION,
   "BEGIN:VTIMEZONE", "TZID:" ++ TZID, "X-LIC-LOCATION:" ++ TZID,
   "BEGIN:DAYLIGHT", "TZOFFSETFROM:+0100", "TZOFFSETTO:+0200", "TZNAME:CEST",
   "DTSTART:19700329T020000", "RRULE:FREQ=YEARLY;BYMONTH=3;BYDAY=-1SU", "END:DAYLIGHT",
   "BEGIN:STANDARD", "TZOFFSETFROM:+0200", "TZOFFSETTO:+0100", "TZNAME:CET",
   "DTSTART:19701025T030000", "RRULE:FREQ=YEARLY;BYMONTH=10;BYDAY=-1SU", "END:STANDARD",
   "END:VTIMEZONE"]

/-- The per-event lines appended by the loop in `build_ics`. -/
def eventLines (uuid5 : String → String) (now : DateTime) (ev : MatchEvent) : List String :=
  ["BEGIN:VEVENT",
   "UID:" ++ stable_uid uuid5 ev.uid_seed,
   "DTSTAMP:" ++ dt_to_ics_utc now,
   "DTSTART;TZID=" ++ TZID ++ ":" ++ dt_to_ics_local ev.start,
   "DTEND;TZID=" ++ TZID ++ ":" ++ dt_to_ics_local ev.stop,
   "SUMMARY:" ++ ics_escape ev.summary,
   (if ev.location ≠ "" then "LOCATION:" ++ ics_escape ev.location else "LOCATION:"),
   (if ev.description ≠ "" then "DESCRIPTION:" ++ ics_escape ev.description
    else "DESCRIPTION:"),
   "END:VEVENT"]

/-- The content lines of `build_ics`, before folding, where `now` is the
generation timestamp `datetime.utcnow()`. -/
def build_ics_lines (uuid5 : String → String) (now : DateTime)
    (events : List MatchEvent) : List String :=
  calendarHeaderLines ++ listJoinMap (eventLines uuid5 now) events ++ ["END:VCALENDAR"]

/-- The chunking loop of `ics_fold_line` (75-octet folding). -/
def foldChunks (l : List Char) : List (List Char) :=
  if l.length ≤ 75 then [l]
  else l.take 75 :: foldChunks (' ' :: l.drop 75)
termination_by l.length
decreasing_by simp [List.length_drop]; omega

def joinCRLF : List String → String
  | [] => ""
  | [s] => s
  | s :: rest => s ++ "\r\n" ++ joinCRLF rest

def ics_fold_line (line : String) : String :=
  joinCRLF ((foldChunks line.data).map (fun c => String.mk c))

/-- `build_ics` of the source. -/
def build_ics (uuid5 : String → String) (now : DateTime) (events : List MatchEvent) :
    String :=
  joinCRLF ((build_ics_lines uuid5 now events).map ics_fold_line) ++ "\r\n"

deriving instance DecidableEq for Except

/-! ### Dict semantics of the dedup step -/

/-- Dict lookup: value of the first (unique) entry with the given key. -/
def findVal (s : String) : List (String × MatchEvent) → Option MatchEvent
  | [] => none
  | p :: t => if p.1 == s then some p.2 else findVal s t

theorem updEntry_fst (ev : MatchEvent) (p : String × MatchEvent) :
    (updEntry ev p).1 = p.1 := by
  unfold updEntry; split <;> rfl

theorem option_orElse_assoc (a : Option α) (b c : Unit → Option α) :
    (a.orElse b).orElse c = a.orElse (fun _ => (b ()).orElse c) := by
  cases a <;> rfl

theorem getLast?_cons_eq_orElse (a : α) (l : List α) :
    (a :: l).getLast? = (l.getLast?).orElse (fun _ => some a) := by
  cases l with
  | nil => rfl
  | cons b t =>
    rw [List.getLast?_cons_cons]
    cases h : (b :: t).getLast? with
    | none => exact absurd (List.getLast?_eq_none_iff.mp h) (by simp)
    | some y => rfl

theorem findVal_cons (s : String) (p : String × MatchEvent) (t : List (String × MatchEvent)) :
    findVal s (p :: t) = if p.1 == s then some p.2 else findVal s t := rfl

theorem findVal_map_upd (ev : MatchEvent) (m : List (String × MatchEvent)) (s : String) :
    findVal s (m.map (updEntry ev)) =
      (findVal s m).map (fun v => if s = ev.uid_seed then ev else v) := by
  induction m with
  | nil => rfl
  | cons q t ih =>
    rw [List.map_cons, findVal_cons, findVal_cons, updEntry_fst]
    by_cases hq : (q.1 == s) = true
    · rw [if_pos hq, if_pos hq, Option.map_some']
      have hq3 : q.1 = s := by rwa [beq_iff_eq] at hq
      refine congrArg some ?_
      unfold updEntry
      by_cases hseed : q.1 = ev.uid_seed
      · rw [if_pos (beq_iff_eq.mpr hseed), if_pos (hq3 ▸ hseed : s = ev.uid_seed)]
      · rw [if_neg (fun h => hseed (beq_iff_eq.mp h))]
        rw [if_neg (fun h : s = ev.uid_seed => hseed (hq3.symm ▸ h))]
    · rw [if_neg hq, if_neg hq, ih]

theorem findVal_append_single (s k : String) (v : MatchEvent) (m : List (String × MatchEvent)) :
    findVal s (m ++ [(k, v)]) =
      (findVal s m).orElse (fun _ => if s = k then some v else none) := by
  induction m with
  | nil =>
    rw [List.nil_append, findVal_cons]
    by_cases h : (k == s) = true
    · have h2 : s = k := (beq_iff_eq.mp h).symm
      rw [if_pos h, if_pos h2]
      rfl
    · have h2 : ¬ s = k := fun hh => h (beq_iff_eq.mpr hh.symm)
      rw [if_neg h, if_neg h2]
      rfl
  | cons q t ih =>
    rw [List.cons_append, findVal_cons, findVal_cons]
    by_cases hq : (q.1 == s) = true
    · rw [if_pos hq, if_pos hq]; rfl
    · rw [if_neg hq, if_neg hq, ih]

theorem findVal_isSome_iff (s : String) (m : List (String × MatchEvent)) :
    (findVal s m).isSome ↔ s ∈ m.map Prod.fst := by
  induction m with
  | nil => simp [findVal]
  | cons q t ih =>
    rw [findVal_cons, List.map_cons]
    by_cases hq : (q.1 == s) = true
    · have hq2 : q.1 = s := beq_iff_eq.mp hq
      rw [if_pos hq]
      simp [hq2]
    · have hq2 : ¬ q.1 = s := fun h => hq (beq_iff_eq.mpr h)
      rw [if_neg hq, ih]
      simp only [List.mem_cons]
      constructor
      · exact Or.inr
      · rintro (h | h)
        · exact absurd h.symm hq2
        · exact h

theorem any_key_iff (m : List (String × MatchEvent)) (x : String) :
    m.any (fun p => p.1 == x) = true ↔ x ∈ m.map Prod.fst := by
  simp [List.any_eq_true, List.mem_map, beq_iff_eq]

theorem findVal_updateAssoc (m : List (String × MatchEvent)) (ev : MatchEvent) (s : String) :
    findVal s (updateAssoc m ev) = if s = ev.uid_seed then some ev else findVal s m := by
  unfold updateAssoc
  by_cases hany : m.any (fun p => p.1 == ev.uid_seed) = true
  · rw [if_pos hany, findVal_map_upd]
    by_cases hs : s = ev.uid_seed
    · have hsome : (findVal s m).isSome := by
        rw [findVal_isSome_iff, hs]
        exact (any_key_iff m ev.uid_seed).mp hany
      obtain ⟨v, hv⟩ := Option.isSome_iff_exists.mp hsome
      rw [hv, Option.map_some', if_pos hs, if_pos hs]
    · rw [if_neg hs]
      cases hfv : findVal s m with
      | none => rfl
      | some v => rw [Option.map_some', if_neg hs]
  · rw [if_neg hany, findVal_append_single]
    by_cases hs : s = ev.uid_seed
    · have hnone : findVal s m = none := by
        cases h : findVal s m with
        | none => rfl
        | some v =>
          exfalso
          apply hany
          rw [any_key_iff, ← findVal_isSome_iff, ← hs, h]
          rfl
      rw [hnone, if_pos hs]
      rfl
    · simp only [if_neg hs]
      cases findVal s m <;> rfl

theorem findVal_foldl (evs : List MatchEvent) :
    ∀ (m : List (String × MatchEvent)) (s : String),
      findVal s (evs.foldl updateAssoc m) =
        ((evs.filter (fun e => e.uid_seed == s)).getLast?).orElse (fun _ => findVal s m) := by
  induction evs with
  | nil => intro m s; rfl
  | cons ev t ih =>
    intro m s
    rw [List.foldl_cons, ih]
    by_cases hs : (ev.uid_seed == s) = true
    · have hfil : List.filter (fun e => e.uid_seed == s) (ev :: t) =
          ev :: List.filter (fun e => e.uid_seed == s) t := by
        simp [List.filter_cons, hs]
      rw [hfil, getLast?_cons_eq_orElse, option_orElse_assoc]
      congr 1
      funext u
      rw [findVal_updateAssoc, if_pos (beq_iff_eq.mp hs).symm]
      rfl
    · have hfil : List.filter (fun e => e.uid_seed == s) (ev :: t) =
          List.filter (fun e => e.uid_seed == s) t := by
        simp [List.filter_cons, hs]
      rw [hfil]
      congr 1
      funext u
      rw [findVal_updateAssoc,
        if_neg (fun h : s = ev.uid_seed => hs (beq_iff_eq.mpr h.symm))]

theorem updateAssoc_entries_key (m : List (String × MatchEvent)) (ev : MatchEvent)
    (h : ∀ p ∈ m, p.1 = p.2.uid_seed) :
    ∀ p ∈ updateAssoc m ev, p.1 = p.2.uid_seed := by
  intro p hp
  unfold updateAssoc at hp
  split at hp
  · rcases List.mem_map.1 hp with ⟨q, hq, hq2⟩
    subst hq2
    unfold updEntry
    split
    case isTrue hqs => exact beq_iff_eq.mp hqs
    case isFalse hqs => exact h q hq
  · rcases List.mem_append.1 hp with hq | hq
    · exact h p hq
    · rw [List.mem_singleton] at hq; subst hq; rfl

theorem foldl_entries_key (evs : List MatchEvent) :
    ∀ (m : List (String × MatchEvent)), (∀ p ∈ m, p.1 = p.2.uid_seed) →
      ∀ p ∈ evs.foldl updateAssoc m, p.1 = p.2.uid_seed := by
  induction evs with
  | nil => intro m h; exact h
  | cons ev t ih =>
    intro m h
    rw [List.foldl_cons]
    exact ih _ (updateAssoc_entries_key m ev h)

theorem updateAssoc_keys_nodup (m : List (String × MatchEvent)) (ev : MatchEvent)
    (h : (m.map Prod.fst).Nodup) : ((updateAssoc m ev).map Prod.fst).Nodup := by
  unfold updateAssoc
  split
  case isTrue =>
    rw [List.map_map]
    have heq : m.map (Prod.fst ∘ updEntry ev) = m.map Prod.fst :=
      List.map_congr_left (fun p _ => updEntry_fst ev p)
    rw [heq]
    exact h
  case isFalse hany =>
    rw [List.map_append, List.nodup_append]
    refine ⟨h, List.nodup_singleton _, ?_⟩
    intro x hx hx2
    simp only [List.map_cons, List.map_nil, List.mem_singleton] at hx2
    rw [hx2] at hx
    exact hany ((any_key_iff m ev.uid_seed).mpr hx)

theorem foldl_keys_nodup (evs : List MatchEvent) :
    ∀ (m : List (String × MatchEvent)), (m.map Prod.fst).Nodup →
      ((evs.foldl updateAssoc m).map Prod.fst).Nodup := by
  induction evs with
  | nil => intro m h; exact h
  | cons ev t ih =>
    intro m h
    rw [List.foldl_cons]
    exact ih _ (updateAssoc_keys_nodup m ev h)

theorem findVal_of_mem_nodup :
    ∀ (m : List (String × MatchEvent)), (m.map Prod.fst).Nodup →
      ∀ (k : String) (v : MatchEvent), (k, v) ∈ m → findVal k m = some v := by
  intro m
  induction m with
  | nil => intro _ k v hm; exact absurd hm (List.not_mem_nil _)
  | cons q t ih =>
    intro hn k v hm
    rw [findVal_cons]
    rcases List.mem_cons.1 hm with h | h
    · rw [← h]
      rw [if_pos (beq_self_eq_true k)]
    · have hk : k ∈ t.map Prod.fst := List.mem_map.2 ⟨(k, v), h, rfl⟩
      rw [List.map_cons] at hn
      have hq : q.1 ≠ k := fun he => (List.nodup_cons.mp hn).1 (he ▸ hk)
      rw [if_neg (fun hb => hq (beq_iff_eq.mp hb))]
      exact ih (List.nodup_cons.mp hn).2 k v h

theorem mem_dedup_findVal {evs : List MatchEvent} {e : MatchEvent} (h : e ∈ dedupByUid evs) :
    findVal e.uid_seed (evs.foldl updateAssoc []) = some e := by
  unfold dedupByUid at h
  rcases List.mem_map.1 h with ⟨p, hp, hp2⟩
  have hkey : p.1 = p.2.uid_seed :=
    foldl_entries_key evs [] (fun p hp => absurd hp (List.not_mem_nil _)) p hp
  have hnodup : ((evs.foldl updateAssoc []).map Prod.fst).Nodup :=
    foldl_keys_nodup evs [] (by simp)
  obtain ⟨a, b⟩ := p
  have hb : b = e := hp2
  subst hb
  have ha : a = b.uid_seed := hkey
  subst ha
  exact findVal_of_mem_nodup _ hnodup _ _ hp

theorem dedup_last_wins {evs : List MatchEvent} {e : MatchEvent} (h : e ∈ dedupByUid evs) :
    (evs.filter (fun x => x.uid_seed == e.uid_seed)).getLast? = some e := by
  have h2 := mem_dedup_findVal h
  rw [findVal_foldl] at h2
  cases hl : (evs.filter (fun x => x.uid_seed == e.uid_seed)).getLast? with
  | some y => rw [hl] at h2; exact h2
  | none =>
    rw [hl] at h2
    exact Option.noConfusion h2

theorem getLast?_mem_own : ∀ (l : List α) (a : α), l.getLast? = some a → a ∈ l
  | [], a, h => Option.noConfusion h
  | [b], a, h => by
    rw [show ([b] : List α).getLast? = some b from rfl] at h
    rw [List.mem_singleton]
    exact (Option.some.injEq _ _ ▸ h).symm ▸ rfl
  | b :: c :: t, a, h => by
    rw [List.getLast?_cons_cons] at h
    exact List.mem_cons_of_mem _ (getLast?_mem_own (c :: t) a h)

theorem countP_congr_own (p q : α → Bool) :
    ∀ (l : List α), (∀ x ∈ l, p x = q x) → l.countP p = l.countP q := by
  intro l
  induction l with
  | nil => intro _; rfl
  | cons x t ih =>
    intro h
    rw [List.countP_cons, List.countP_cons, h x (List.mem_cons_self x t),
      ih (fun y hy => h y (List.mem_cons_of_mem x hy))]

theorem any_iff_findVal (evs : List MatchEvent) (s : String) :
    evs.any (fun e => e.uid_seed == s) = true ↔
      (findVal s (evs.foldl updateAssoc [])).isSome := by
  rw [findVal_foldl]
  cases hl : (evs.filter (fun e => e.uid_seed == s)).getLast? with
  | some y =>
    constructor
    · intro _; rfl
    · intro _
      have hy : y ∈ evs.filter (fun e => e.uid_seed == s) := getLast?_mem_own _ _ hl
      rcases List.mem_filter.1 hy with ⟨hy1, hy2⟩
      exact List.any_eq_true.mpr ⟨y, hy1, hy2⟩
  | none =>
    have hfil : evs.filter (fun e => e.uid_seed == s) = [] :=
      List.getLast?_eq_none_iff.mp hl
    constructor
    · intro hany
      rcases List.any_eq_true.1 hany with ⟨x, hx1, hx2⟩
      exact absurd hx2 (List.filter_eq_nil_iff.mp hfil x hx1)
    · intro hsome
      exact absurd hsome (by simp [findVal])

theorem dedup_countP (evs : List MatchEvent) (s : String) :
    (dedupByUid evs).countP (fun e => e.uid_seed == s) =
      if evs.any (fun e => e.uid_seed == s) then 1 else 0 := by
  unfold dedupByUid
  have hkey : ∀ p ∈ evs.foldl updateAssoc [], p.1 = p.2.uid_seed :=
    foldl_entries_key evs [] (fun p hp => absurd hp (List.not_mem_nil _))
  have hnodup : ((evs.foldl updateAssoc []).map Prod.fst).Nodup :=
    foldl_keys_nodup evs [] (by simp)
  rw [List.countP_map]
  have h1 : (evs.foldl updateAssoc []).countP ((fun e => e.uid_seed == s) ∘ Prod.snd) =
      (evs.foldl updateAssoc []).countP (fun p => p.1 == s) :=
    countP_congr_own _ _ _ (fun p hp => by
      show (p.2.uid_seed == s) = (p.1 == s)
      rw [hkey p hp])
  rw [h1]
  have h2 : (evs.foldl updateAssoc []).countP (fun p => p.1 == s) =
      ((evs.foldl updateAssoc []).map Prod.fst).countP (fun k => k == s) := by
    rw [List.countP_map]
    exact countP_congr_own _ _ _ (fun p _ => rfl)
  rw [h2, ← List.count_eq_countP]
  by_cases hmem : s ∈ (evs.foldl updateAssoc []).map Prod.fst
  · rw [List.count_eq_one_of_mem hnodup hmem, if_pos]
    rw [any_iff_findVal]
    exact (findVal_isSome_iff _ _).mpr hmem
  · rw [List.count_eq_zero_of_not_mem hmem, if_neg]
    intro hany
    exact hmem ((findVal_isSome_iff _ _).mp ((any_iff_findVal evs s).mp hany))

theorem sortEvents_perm (l : List MatchEvent) : List.Perm (sortEvents l) l :=
  List.perm_insertionSort _ l

theorem collectEvents_cons (a : String) (rest : List String) :
    collectEvents (a :: rest) =
      match parse_datetime_from_text a with
      | .error e => .error e
      | .ok none => collectEvents rest
      | .ok (some (dt, key)) =>
        match collectEvents rest with
        | .error e => .error e
        | .ok r => .ok (mkEvent a dt key :: r) := rfl

theorem collectEvents_skip {b : String} (hb : parse_datetime_from_text b = .ok none) :
    ∀ (l1 l2 : List String), collectEvents (l1 ++ b :: l2) = collectEvents (l1 ++ l2) := by
  intro l1
  induction l1 with
  | nil =>
    intro l2
    simp only [List.nil_append]
    show (match parse_datetime_from_text b with
      | .error e => .error e
      | .ok none => collectEvents l2
      | .ok (some (dt, key)) =>
        match collectEvents l2 with
        | .error e => .error e
        | .ok rest => .ok (mkEvent b dt key :: rest)) = collectEvents l2
    rw [hb]
  | cons a t ih =>
    intro l2
    rw [List.cons_append, List.cons_append, collectEvents_cons, collectEvents_cons, ih l2]

theorem mkEvent_start (b : String) (dt : DateTime) (key : String) :
    (mkEvent b dt key).start = dt := rfl

theorem mkEvent_uid (b : String) (dt : DateTime) (key : String) :
    (mkEvent b dt key).uid_seed =
      key ++ "|" ++ pad2 dt.hour ++ ":" ++ pad2 dt.minute ++ "|" ++ (mkEvent b dt key).summary
        ++ "|" ++ (mkEvent b dt key).location := by
  simp only [mkEvent]

/-- The `date_key` returned by a successful parse is determined by the
returned datetime. -/
theorem parse_ok_key {b : String} {dt : DateTime} {key : String}
    (h : parse_datetime_from_text b = .ok (some (dt, key))) :
    key = dateKeyStr dt.year dt.month dt.day := by
  unfold parse_datetime_from_text at h
  simp only [] at h
  split at h
  case _ y mo d hh mm heq1 heq2 =>
    split at h
    · have h2 := Except.ok.inj h
      have h3 := Option.some.inj h2
      have hdt : (⟨y, mo, d, hh, mm, 0⟩ : DateTime) = dt := congrArg Prod.fst h3
      have hkey : dateKeyStr y mo d = key := congrArg Prod.snd h3
      rw [← hdt]
      exact hkey.symm
    · exact Except.noConfusion h
  case _ =>
    have h2 := Except.ok.inj h
    exact Option.noConfusion h2

/-! ## Claim theorems -/

/-- C6 counterexample: escaping is not reversible on carriage returns.
`ics_escape` normalises a bare CR to LF before escaping, so decoding
recovers an LF, not the original CR. -/
theorem claim6_counterexample :
    ics_unescape (ics_escape "a\rb") = "a\nb" ∧ ics_unescape (ics_escape "a\rb") ≠ "a\rb" := by
  constructor
  · decide
  · decide

/-- C6 (amended): for every string containing no carriage return, applying
the wire format's TEXT unescaping to `ics_escape s` recovers `s` exactly;
a CR or CRLF in `s` is normalised to a single LF and is not recovered. -/
theorem claim6_escape_roundtrip (s : String) (h : '\r' ∉ s.data) :
    ics_unescape (ics_escape s) = s := by
  show String.mk (icsUnescapeList (String.mk (icsEscapeList s.data)).data) = s
  rw [show (String.mk (icsEscapeList s.data)).data = icsEscapeList s.data from rfl,
    unescape_escape_of_no_cr s.data h]

theorem claim6_witness :
    '\r' ∉ ("a,b;c\\d\ne" : String).data
    ∧ ics_unescape (ics_escape "a,b;c\\d\ne") = "a,b;c\\d\ne" :=
  ⟨by decide, claim6_escape_roundtrip "a,b;c\\d\ne" (by decide)⟩

/-- C9: `ics_escape` output never contains a literal CR or LF; each LF, CR
or CRLF of the input is emitted as the two-character sequence backslash-n,
so every escaped field value occupies a single unfolded content line. -/
theorem claim9_no_raw_newlines (s : String) :
    ('\r' ∉ (ics_escape s).data ∧ '\n' ∉ (ics_escape s).data)
    ∧ ics_escape "\r\n" = "\\n" ∧ ics_escape "\r" = "\\n" ∧ ics_escape "\n" = "\\n" := by
  refine ⟨?_, by decide, by decide, by decide⟩
  show '\r' ∉ icsEscapeList s.data ∧ '\n' ∉ icsEscapeList s.data
  exact icsEscapeList_no_cr_lf s.data

/-- C3 counterexample: the spec's worked example yields zero events, not
one: neither the date `Thursday 15. Jan.` nor the time `at 18:00` matches
the numeric patterns the code actually uses. -/
theorem claim3_counterexample :
    (build_events_from_blocks
      ["Thursday 15. Jan.\nat 18:00\nDenmark - Norway\nEM qualification\nChannel X Sport"]).map
        List.length = .ok 0 := by
  decide

/-- C3 (amended): the spec's worked example block is skipped entirely —
the date/time parse fails (`DATE_RE` wants numeric dates such as
`16/1/2026`, `TIME_RE` wants a dot-separated time such as `18.00`), so the
pipeline yields zero events for it. -/
theorem claim3_example_block_yields_nothing :
    parse_datetime_from_text
        "Thursday 15. Jan.\nat 18:00\nDenmark - Norway\nEM qualification\nChannel X Sport"
      = .ok none
    ∧ build_events_from_blocks
        ["Thursday 15. Jan.\nat 18:00\nDenmark - Norway\nEM qualification\nChannel X Sport"]
      = .ok [] := by
  constructor
  · decide
  · decide

/-- C4 counterexample: a chronologically ordered December→January sequence
with explicit years (December 2025, then January 2027) is parsed with the
years exactly as written; the January entry does not get the December year
plus one. -/
theorem claim4_counterexample :
    parse_datetime_from_text "Kamp A\n20/12/2025 18.00"
        = .ok (some (⟨2025, 12, 20, 18, 0, 0⟩, "2025-12-20"))
    ∧ parse_datetime_from_text "Kamp B\n05/01/2027 18.00"
        = .ok (some (⟨2027, 1, 5, 18, 0, 0⟩, "2027-01-05"))
    ∧ (2027 : Nat) ≠ 2025 + 1 := by
  refine ⟨by decide, by decide, by decide⟩

/-- C4 (amended): the parser keeps no cross-entry state and performs no
December→January year increment: in a two-block sequence each event's year
is the year parsed from that block's own text (an explicit year field is
required by `DATE_RE`; two-digit years get 2000 added, see C10). -/
theorem claim4_year_from_own_text (bD bJ : String) (dtD dtJ : DateTime) (kD kJ : String)
    (hD : parse_datetime_from_text bD = .ok (some (dtD, kD)))
    (hJ : parse_datetime_from_text bJ = .ok (some (dtJ, kJ))) :
    collectEvents [bD, bJ] = .ok [mkEvent bD dtD kD, mkEvent bJ dtJ kJ]
    ∧ List.map (fun e => e.start.year) [mkEvent bD dtD kD, mkEvent bJ dtJ kJ]
        = [dtD.year, dtJ.year] := by
  constructor
  · rw [collectEvents_cons, hD, collectEvents_cons, hJ]
    rfl
  · rfl

theorem claim4_witness :
    parse_datetime_from_text "Kamp C\n28/12/2025 20.30"
        = .ok (some (⟨2025, 12, 28, 20, 30, 0⟩, "2025-12-28"))
    ∧ parse_datetime_from_text "Kamp D\n04/01/2026 20.30"
        = .ok (some (⟨2026, 1, 4, 20, 30, 0⟩, "2026-01-04"))
    ∧ (collectEvents ["Kamp C\n28/12/2025 20.30", "Kamp D\n04/01/2026 20.30"]
        = .ok [mkEvent "Kamp C\n28/12/2025 20.30" ⟨2025, 12, 28, 20, 30, 0⟩ "2025-12-28",
               mkEvent "Kamp D\n04/01/2026 20.30" ⟨2026, 1, 4, 20, 30, 0⟩ "2026-01-04"]
      ∧ List.map (fun e => e.start.year)
          [mkEvent "Kamp C\n28/12/2025 20.30" ⟨2025, 12, 28, 20, 30, 0⟩ "2025-12-28",
           mkEvent "Kamp D\n04/01/2026 20.30" ⟨2026, 1, 4, 20, 30, 0⟩ "2026-01-04"]
        = [2025, 2026]) :=
  ⟨by decide, by decide,
    claim4_year_from_own_text _ _ _ _ _ _ (by decide) (by decide)⟩

/-- C1 counterexample: a block with a parseable date and time whose only
content is a competition banner (no ` - ` pairing, no three-line split,
fewer than two fallback candidate lines) still contributes one event: the
summary falls back to the banner text. -/
theorem claim1_counterexample :
    build_events_from_blocks ["17/1/2026 18.00\nChampions League"] =
      .ok [{ start := ⟨2026, 1, 17, 18, 0, 0⟩, stop := ⟨2026, 1, 17, 19, 30, 0⟩,
             summary := "Champions League", location := "",
             description := "Champions League",
             uid_seed := "2026-01-17|18:00|Champions League|" }] := by
  decide

/-- C1 (amended): every block whose date and time parse yields exactly one
event; when the teams extraction fails, the summary falls back to the
competition line, and to the fixed text `Håndboldkamp` when that is empty
too — the block is never dropped for lack of a resolvable summary. -/
theorem claim1_parse_success_yields_one_event (b : String) (dt : DateTime) (key : String)
    (h : parse_datetime_from_text b = .ok (some (dt, key))) :
    collectEvents [b] = .ok [mkEvent b dt key]
    ∧ build_events_from_blocks [b] = .ok [mkEvent b dt key]
    ∧ (mkEvent b dt key).summary =
        (clean_summary
          (if (extract_teams_and_competition (blockLines b)).1 ≠ "" then
            (extract_teams_and_competition (blockLines b)).1
          else if (extract_teams_and_competition (blockLines b)).2 ≠ "" then
            (extract_teams_and_competition (blockLines b)).2
          else "Håndboldkamp")
          (extract_teams_and_competition (blockLines b)).2).1 := by
  have hc : collectEvents [b] = .ok [mkEvent b dt key] := by
    rw [collectEvents_cons, h]
    rfl
  refine ⟨hc, ?_, ?_⟩
  · unfold build_events_from_blocks
    rw [hc]
    show Except.ok (sortEvents (dedupByUid [mkEvent b dt key])) = Except.ok [mkEvent b dt key]
    rfl
  · simp only [mkEvent, evSummaryComp]

theorem claim1_witness :
    parse_datetime_from_text "24/1/2026 16.30\nHold C - Hold D"
        = .ok (some (⟨2026, 1, 24, 16, 30, 0⟩, "2026-01-24"))
    ∧ (collectEvents ["24/1/2026 16.30\nHold C - Hold D"]
          = .ok [mkEvent "24/1/2026 16.30\nHold C - Hold D" ⟨2026, 1, 24, 16, 30, 0⟩
              "2026-01-24"]
      ∧ build_events_from_blocks ["24/1/2026 16.30\nHold C - Hold D"]
          = .ok [mkEvent "24/1/2026 16.30\nHold C - Hold D" ⟨2026, 1, 24, 16, 30, 0⟩
              "2026-01-24"]
      ∧ (mkEvent "24/1/2026 16.30\nHold C - Hold D" ⟨2026, 1, 24, 16, 30, 0⟩
            "2026-01-24").summary =
          (clean_summary
            (if (extract_teams_and_competition
                (blockLines "24/1/2026 16.30\nHold C - Hold D")).1 ≠ "" then
              (extract_teams_and_competition
                (blockLines "24/1/2026 16.30\nHold C - Hold D")).1
            else if (extract_teams_and_competition
                (blockLines "24/1/2026 16.30\nHold C - Hold D")).2 ≠ "" then
              (extract_teams_and_competition
                (blockLines "24/1/2026 16.30\nHold C - Hold D")).2
            else "Håndboldkamp")
            (extract_teams_and_competition
              (blockLines "24/1/2026 16.30\nHold C - Hold D")).2).1) :=
  ⟨by decide, claim1_parse_success_yields_one_event _ _ _ (by decide)⟩

/-- C2 counterexample: two blocks that differ only in channel produce
events with equal start and equal summary but different dedup identities —
the channel (location) is part of the `uid_seed`, contradicting the claim
that location is excluded from the identity key. -/
theorem claim2_counterexample :
    (collectEvents ["19/1/2026 18.00\nAlpha - Beta\nDR1"]).map (List.map MatchEvent.start)
        = (collectEvents ["19/1/2026 18.00\nAlpha - Beta\nDR2"]).map (List.map MatchEvent.start)
    ∧ (collectEvents ["19/1/2026 18.00\nAlpha - Beta\nDR1"]).map (List.map MatchEvent.summary)
        = (collectEvents ["19/1/2026 18.00\nAlpha - Beta\nDR2"]).map
            (List.map MatchEvent.summary)
    ∧ (collectEvents ["19/1/2026 18.00\nAlpha - Beta\nDR1"]).map (List.map MatchEvent.uid_seed)
        ≠ (collectEvents ["19/1/2026 18.00\nAlpha - Beta\nDR2"]).map
            (List.map MatchEvent.uid_seed) := by
  refine ⟨by decide, by decide, by decide⟩

/-- C2 (amended): the dedup identity (`uid_seed`) is a function of the
start instant, the summary AND the channel (location); only the
description is excluded.  Two events with equal start, summary and
location have equal identity regardless of their descriptions. -/
theorem claim2_identity_excludes_only_description (b1 b2 : String) (dt1 dt2 : DateTime)
    (k1 k2 : String)
    (h1 : parse_datetime_from_text b1 = .ok (some (dt1, k1)))
    (h2 : parse_datetime_from_text b2 = .ok (some (dt2, k2)))
    (hstart : (mkEvent b1 dt1 k1).start = (mkEvent b2 dt2 k2).start)
    (hsum : (mkEvent b1 dt1 k1).summary = (mkEvent b2 dt2 k2).summary)
    (hloc : (mkEvent b1 dt1 k1).location = (mkEvent b2 dt2 k2).location) :
    (mkEvent b1 dt1 k1).uid_seed = (mkEvent b2 dt2 k2).uid_seed := by
  have hd : dt1 = dt2 := hstart
  have hk1 := parse_ok_key h1
  have hk2 := parse_ok_key h2
  rw [mkEvent_uid, mkEvent_uid, hsum, hloc, hk1, hk2, hd]

theorem claim2_witness :
    parse_datetime_from_text "20/1/2026 19.00\nGamma - Delta\nRunde 3"
        = .ok (some (⟨2026, 1, 20, 19, 0, 0⟩, "2026-01-20"))
    ∧ parse_datetime_from_text "20/1/2026 19.00\nGamma - Delta\nRunde 4"
        = .ok (some (⟨2026, 1, 20, 19, 0, 0⟩, "2026-01-20"))
    ∧ (mkEvent "20/1/2026 19.00\nGamma - Delta\nRunde 3" ⟨2026, 1, 20, 19, 0, 0⟩
          "2026-01-20").description
        ≠ (mkEvent "20/1/2026 19.00\nGamma - Delta\nRunde 4" ⟨2026, 1, 20, 19, 0, 0⟩
            "2026-01-20").description
    ∧ (mkEvent "20/1/2026 19.00\nGamma - Delta\nRunde 3" ⟨2026, 1, 20, 19, 0, 0⟩
          "2026-01-20").uid_seed
        = (mkEvent "20/1/2026 19.00\nGamma - Delta\nRunde 4" ⟨2026, 1, 20, 19, 0, 0⟩
            "2026-01-20").uid_seed :=
  ⟨by decide, by decide, by decide,
    claim2_identity_excludes_only_description _ _ _ _ _ _ (by decide) (by decide)
      (by decide) (by decide) (by decide)⟩

theorem dedup_pair (e : MatchEvent) : dedupByUid [e, e] = [e] := by
  unfold dedupByUid
  rw [List.foldl_cons, List.foldl_cons, List.foldl_nil]
  rw [show updateAssoc [] e = [(e.uid_seed, e)] from rfl]
  unfold updateAssoc
  rw [if_pos (by simp)]
  simp [updEntry]

theorem sort_single (e : MatchEvent) : sortEvents [e] = [e] := by
  simp [sortEvents, List.insertionSort, List.orderedInsert]

def sampleEventA : MatchEvent :=
  ⟨⟨2026, 1, 5, 18, 0, 0⟩, ⟨2026, 1, 5, 19, 30, 0⟩, "X - Y", "", "d1", "k"⟩

def sampleEventB : MatchEvent :=
  ⟨⟨2026, 1, 5, 18, 0, 0⟩, ⟨2026, 1, 5, 19, 30, 0⟩, "X - Y", "", "d2", "k"⟩

/-- C5: deduplication is identity-based and last-write-wins: the dedup dict
keeps exactly one event per present `uid_seed` (the last observed one in
scan order), the final event set has exactly one event per identity, and
feeding an identical block twice yields exactly one event. -/
theorem claim5_dedup_last_write_wins (evs : List MatchEvent) (s : String)
    (bs : List String) (out : List MatchEvent) (b : String) (dt : DateTime) (key : String)
    (hbuild : build_events_from_blocks bs = .ok out)
    (hparse : parse_datetime_from_text b = .ok (some (dt, key))) :
    ((dedupByUid evs).countP (fun e => e.uid_seed == s)
        = if evs.any (fun e => e.uid_seed == s) then 1 else 0)
    ∧ (∀ e ∈ dedupByUid evs,
        (evs.filter (fun x => x.uid_seed == e.uid_seed)).getLast? = some e)
    ∧ (∀ e ∈ out, out.countP (fun x => x.uid_seed == e.uid_seed) = 1)
    ∧ build_events_from_blocks [b, b] = .ok [mkEvent b dt key] := by
  refine ⟨dedup_countP evs s, fun e he => dedup_last_wins he, ?_, ?_⟩
  · intro e he
    unfold build_events_from_blocks at hbuild
    cases hc : collectEvents bs with
    | error err => rw [hc] at hbuild; exact Except.noConfusion hbuild
    | ok c =>
      rw [hc] at hbuild
      have hout : out = sortEvents (dedupByUid c) := (Except.ok.inj hbuild).symm
      subst hout
      have hperm := sortEvents_perm (dedupByUid c)
      rw [hperm.countP_eq]
      have he2 : e ∈ dedupByUid c := hperm.mem_iff.mp he
      rw [dedup_countP]
      have hl := dedup_last_wins he2
      have hy := getLast?_mem_own _ _ hl
      rcases List.mem_filter.1 hy with ⟨hy1, hy2⟩
      rw [if_pos (List.any_eq_true.mpr ⟨e, hy1, hy2⟩)]
  · have hc2 : collectEvents [b, b] = .ok [mkEvent b dt key, mkEvent b dt key] := by
      rw [collectEvents_cons, hparse, collectEvents_cons, hparse]
      rfl
    unfold build_events_from_blocks
    rw [hc2]
    show Except.ok (sortEvents (dedupByUid [mkEvent b dt key, mkEvent b dt key]))
      = Except.ok [mkEvent b dt key]
    rw [dedup_pair, sort_single]

theorem claim5_witness :
    build_events_from_blocks ([] : List String) = .ok ([] : List MatchEvent)
    ∧ parse_datetime_from_text "25/1/2026 10.00\nJuliet - Kilo"
        = .ok (some (⟨2026, 1, 25, 10, 0, 0⟩, "2026-01-25"))
    ∧ (((dedupByUid [sampleEventA, sampleEventB]).countP (fun e => e.uid_seed == "k")
          = if [sampleEventA, sampleEventB].any (fun e => e.uid_seed == "k") then 1 else 0)
      ∧ (∀ e ∈ dedupByUid [sampleEventA, sampleEventB],
          ([sampleEventA, sampleEventB].filter (fun x => x.uid_seed == e.uid_seed)).getLast?
            = some e)
      ∧ (∀ e ∈ ([] : List MatchEvent),
          ([] : List MatchEvent).countP (fun x => x.uid_seed == e.uid_seed) = 1)
      ∧ build_events_from_blocks
            ["25/1/2026 10.00\nJuliet - Kilo", "25/1/2026 10.00\nJuliet - Kilo"]
          = .ok [mkEvent "25/1/2026 10.00\nJuliet - Kilo" ⟨2026, 1, 25, 10, 0, 0⟩
              "2026-01-25"]) :=
  ⟨rfl, by decide,
    claim5_dedup_last_write_wins [sampleEventA, sampleEventB] "k" [] [] _ _ _ rfl (by decide)⟩

/-- C7 counterexample: an event with empty location and empty description
still gets a `LOCATION:` and a `DESCRIPTION:` content line in its VEVENT
(with an empty value), contradicting the claim that the lines are emitted
only when non-empty. -/
theorem claim7_counterexample :
    "LOCATION:" ∈ build_ics_lines (fun _ => "u") ⟨2026, 1, 17, 12, 0, 0⟩
        [⟨⟨2026, 1, 17, 18, 0, 0⟩, ⟨2026, 1, 17, 19, 30, 0⟩, "A - B", "", "", "seed1"⟩]
    ∧ "DESCRIPTION:" ∈ build_ics_lines (fun _ => "u") ⟨2026, 1, 17, 12, 0, 0⟩
        [⟨⟨2026, 1, 17, 18, 0, 0⟩, ⟨2026, 1, 17, 19, 30, 0⟩, "A - B", "", "", "seed1"⟩] := by
  refine ⟨by decide, by decide⟩

/-- C7 (amended): every encoded event always carries a `LOCATION` and a
`DESCRIPTION` content line; when the field value is empty the line is the
bare property name with an empty value, otherwise it carries the escaped
value. -/
theorem claim7_lines_always_emitted (uuid5 : String → String) (now : DateTime)
    (evs : List MatchEvent) (ev : MatchEvent) (hev : ev ∈ evs) :
    (if ev.location ≠ "" then "LOCATION:" ++ ics_escape ev.location else "LOCATION:")
        ∈ build_ics_lines uuid5 now evs
    ∧ (if ev.description ≠ "" then "DESCRIPTION:" ++ ics_escape ev.description
        else "DESCRIPTION:") ∈ build_ics_lines uuid5 now evs := by
  have hmem : ∀ x ∈ eventLines uuid5 now ev, x ∈ build_ics_lines uuid5 now evs := by
    intro x hx
    unfold build_ics_lines
    exact List.mem_append.2 (Or.inl (List.mem_append.2
      (Or.inr (mem_listJoinMap.2 ⟨ev, hev, hx⟩))))
  constructor
  · exact hmem _ (by unfold eventLines; simp)
  · exact hmem _ (by unfold eventLines; simp)

def sampleEventC : MatchEvent :=
  ⟨⟨2026, 2, 1, 18, 0, 0⟩, ⟨2026, 2, 1, 19, 30, 0⟩, "E - F", "DR1", "", "k2"⟩

theorem claim7_witness :
    sampleEventC ∈ [sampleEventC]
    ∧ ((if sampleEventC.location ≠ "" then "LOCATION:" ++ ics_escape sampleEventC.location
          else "LOCATION:")
            ∈ build_ics_lines (fun _ => "u") ⟨2026, 2, 1, 12, 0, 0⟩ [sampleEventC]
      ∧ (if sampleEventC.description ≠ "" then
            "DESCRIPTION:" ++ ics_escape sampleEventC.description
          else "DESCRIPTION:")
            ∈ build_ics_lines (fun _ => "u") ⟨2026, 2, 1, 12, 0, 0⟩ [sampleEventC]) :=
  ⟨List.mem_cons_self _ _,
    claim7_lines_always_emitted _ _ _ _ (List.mem_cons_self _ _)⟩

/-- C8 counterexample: a block whose summary cannot be resolved (the teams
extraction yields the empty string) is not skipped — it still produces an
event via the fallback summary, so "unresolved summary ⇒ block skipped"
fails on the code. -/
theorem claim8_counterexample :
    (extract_teams_and_competition (blockLines "21/1/2026 20.00\nVM gruppespil")).1 = ""
    ∧ (build_events_from_blocks ["21/1/2026 20.00\nVM gruppespil"]).map List.length
        = .ok 1 := by
  refine ⟨by decide, by decide⟩

/-- C8 (amended): when the run completes, it fails (exit code 2) exactly
when the final event set is empty, and returns 0 exactly when it is
non-empty; a block with an unparseable date/time is recovered locally by
skipping it anywhere in the input (an unresolved summary, by contrast,
falls back to a default summary and does not skip the block — see C1). -/
theorem claim8_fatal_iff_empty (bs : List String) (evs : List MatchEvent) (b : String)
    (hbuild : build_events_from_blocks bs = .ok evs)
    (hparse : parse_datetime_from_text b = .ok none) :
    (main_result bs = .ok 2 ↔ evs = [])
    ∧ (main_result bs = .ok 0 ↔ evs ≠ [])
    ∧ (∀ l1 l2, build_events_from_blocks (l1 ++ b :: l2)
        = build_events_from_blocks (l1 ++ l2)) := by
  have hm : main_result bs = .ok (if evs.isEmpty then 2 else 0) := by
    unfold main_result
    rw [hbuild]
  refine ⟨?_, ?_, ?_⟩
  · rw [hm]
    constructor
    · intro hh
      have h2 := Except.ok.inj hh
      by_cases he : evs.isEmpty
      · exact List.isEmpty_iff.mp he
      · rw [if_neg he] at h2
        exact absurd h2 (by decide)
    · intro hh
      subst hh
      rfl
  · rw [hm]
    constructor
    · intro hh heq
      subst heq
      have h2 := Except.ok.inj hh
      exact absurd h2 (by decide)
    · intro hne
      cases evs with
      | nil => exact absurd rfl hne
      | cons x t => rfl
  · intro l1 l2
    unfold build_events_from_blocks
    rw [collectEvents_skip hparse]

theorem claim8_witness :
    build_events_from_blocks ["22/1/2026 18.00\nAlpha - Gamma"]
        = .ok [⟨⟨2026, 1, 22, 18, 0, 0⟩, ⟨2026, 1, 22, 19, 30, 0⟩, "Alpha - Gamma", "", "",
            "2026-01-22|18:00|Alpha - Gamma|"⟩]
    ∧ parse_datetime_from_text "no date here" = .ok none
    ∧ ((main_result ["22/1/2026 18.00\nAlpha - Gamma"] = .ok 2
          ↔ [(⟨⟨2026, 1, 22, 18, 0, 0⟩, ⟨2026, 1, 22, 19, 30, 0⟩, "Alpha - Gamma", "", "",
              "2026-01-22|18:00|Alpha - Gamma|"⟩ : MatchEvent)] = [])
      ∧ (main_result ["22/1/2026 18.00\nAlpha - Gamma"] = .ok 0
          ↔ [(⟨⟨2026, 1, 22, 18, 0, 0⟩, ⟨2026, 1, 22, 19, 30, 0⟩, "Alpha - Gamma", "", "",
              "2026-01-22|18:00|Alpha - Gamma|"⟩ : MatchEvent)] ≠ [])
      ∧ (∀ l1 l2, build_events_from_blocks (l1 ++ "no date here" :: l2)
          = build_events_from_blocks (l1 ++ l2))) :=
  ⟨by decide, by decide, claim8_fatal_iff_empty _ _ _ (by decide) (by decide)⟩

/-- C10: a `DATE_RE` date with a year below 100 is interpreted as 2000 plus
that value; years of three or four digits are used as written.  Stated over
the scanner results and checked on `16/1/26` (→ 2026), `16/1/2026`
(→ 2026) and `1/2/99` (→ 2099). -/
theorem claim10_two_digit_year (blob : String) (d mo y hh mm : Nat)
    (hiso : isoSearch (nbspToSpace blob.data) = none)
    (hdate : dateSearch (nbspToSpace blob.data) = some (d, mo, y))
    (htime : timeSearch (nbspToSpace blob.data) = some (hh, mm))
    (hvalid : dtValid (if y < 100 then y + 2000 else y) mo d hh mm = true) :
    parse_datetime_from_text blob =
      .ok (some (⟨if y < 100 then y + 2000 else y, mo, d, hh, mm, 0⟩,
        dateKeyStr (if y < 100 then y + 2000 else y) mo d))
    ∧ parse_datetime_from_text "16/1/26 18.00"
        = .ok (some (⟨2026, 1, 16, 18, 0, 0⟩, "2026-01-16"))
    ∧ parse_datetime_from_text "16/1/2026 18.00"
        = .ok (some (⟨2026, 1, 16, 18, 0, 0⟩, "2026-01-16"))
    ∧ parse_datetime_from_text "1/2/99 07.30"
        = .ok (some (⟨2099, 2, 1, 7, 30, 0⟩, "2099-02-01")) := by
  refine ⟨?_, by decide, by decide, by decide⟩
  unfold parse_datetime_from_text
  simp only [hiso, hdate, htime]
  rw [if_pos hvalid]

theorem claim10_witness :
    isoSearch (nbspToSpace ("16/1/26 18.00" : String).data) = none
    ∧ dateSearch (nbspToSpace ("16/1/26 18.00" : String).data) = some (16, 1, 26)
    ∧ timeSearch (nbspToSpace ("16/1/26 18.00" : String).data) = some (18, 0)
    ∧ dtValid (if 26 < 100 then 26 + 2000 else 26) 1 16 18 0 = true
    ∧ (parse_datetime_from_text "16/1/26 18.00" =
        .ok (some (⟨if 26 < 100 then 26 + 2000 else 26, 1, 16, 18, 0, 0⟩,
          dateKeyStr (if 26 < 100 then 26 + 2000 else 26) 1 16))
      ∧ parse_datetime_from_text "16/1/26 18.00"
          = .ok (some (⟨2026, 1, 16, 18, 0, 0⟩, "2026-01-16"))
      ∧ parse_datetime_from_text "16/1/2026 18.00"
          = .ok (some (⟨2026, 1, 16, 18, 0, 0⟩, "2026-01-16"))
      ∧ parse_datetime_from_text "1/2/99 07.30"
          = .ok (some (⟨2099, 2, 1, 7, 30, 0⟩, "2099-02-01"))) :=
  ⟨by decide, by decide, by decide, by decide,
    claim10_two_digit_year "16/1/26 18.00" 16 1 26 18 0 (by decide) (by decide) (by decide)
      (by decide)⟩

end GenerateIcs
